import Mathlib

/-!
Verification of the Reuters RUM sales-intelligence agent
(src/agent-connection/agent_v2.py) against its natural-language
specification.

Modelling conventions.  Python strings are modelled as `List Char`;
Python string operations (strip, upper, lstrip, startswith) are
translated to explicit list functions below.  The Snowflake warehouse
and the TR inference endpoint are external collaborators and are
modelled as oracle functions supplied as parameters; machine I/O
(printing, timing) is dropped.  The regular-expression parser of
`_extract_tool_calls` is translated with its exact backtracking
semantics (lazy groups try the shortest extension first and extend on
continuation failure; the optional description group is tried before
being skipped).  The greedy runs of the whitespace class in the pattern
are always followed by a literal starting with a character that is not
whitespace, so maximal munch without backtracking is exact and they are
translated as `dropWhile`.
-/

/-- Whitespace recognised by Python's default `strip` and by the ASCII part
of the regex class for whitespace: space, tab, newline, carriage return,
vertical tab, form feed. -/
def isSpacePy (c : Char) : Bool :=
  c == ' ' || c == '\t' || c == '\n' || c == '\r' || c == '\x0b' || c == '\x0c'

/-- Python `str.lstrip()` translated to lists. -/
def trimL (s : List Char) : List Char := s.dropWhile isSpacePy

/-- Python `str.rstrip()` translated to lists. -/
def trimR (s : List Char) : List Char := (s.reverse.dropWhile isSpacePy).reverse

/-- Python `str.strip()` translated to lists. -/
def trimLC (s : List Char) : List Char := trimR (trimL s)

/-- Python `str.upper()` translated to lists (the source only upper-cases
SQL text, so the ASCII mapping of `Char.toUpper` is faithful). -/
def toUpperL (s : List Char) : List Char := s.map Char.toUpper

/-- Python `str.startswith(pat)`: exact character-prefix test. -/
def beginsWith : List Char → List Char → Bool
  | [], _ => true
  | _ :: _, [] => false
  | p :: ps, c :: cs => p == c && beginsWith ps cs

/-- Case-insensitive character comparison, as under `re.IGNORECASE`. -/
def lcEq (p c : Char) : Bool := p.toLower == c.toLower

/-- Case-insensitive literal match at the head of the text. -/
def startsWithCI : List Char → List Char → Bool
  | [], _ => true
  | _ :: _, [] => false
  | p :: ps, c :: cs => lcEq p c && startsWithCI ps cs

/-- Match a literal case-insensitively at the head of the text and return
the remaining text. -/
def matchCI (pat s : List Char) : Option (List Char) :=
  if startsWithCI pat s then some (s.drop pat.length) else none

/-! ### Response parser (`_extract_tool_calls`, `_strip_tool_calls`,
agent_v2.py lines 128-156) -/

def TOOL_OPEN : List Char := "<tool_call>".data

def TOOL_CLOSE : List Char := "</tool_call>".data

def DESC_OPEN : List Char := "<description>".data

def DESC_CLOSE : List Char := "</description>".data

def SQL_OPEN : List Char := "<sql>".data

def SQL_CLOSE : List Char := "</sql>".data

/-- Lazy sub-pattern `(.*?)close` followed by a continuation `k`: try the
shortest content first; on failure of the closing literal or of the
continuation, extend the content by one character and retry.  `pre` holds
the content accumulated so far, reversed.  This is the backtracking
semantics of a lazy group inside a Python regex. -/
def lazySplitGo (close : List Char) (k : List Char → List Char → Option β) :
    List Char → List Char → Option β
  | pre, [] =>
    (match matchCI close [] with
     | some rest => k pre.reverse rest
     | none => none)
  | pre, c :: cs =>
    match (match matchCI close (c :: cs) with
           | some rest => k pre.reverse rest
           | none => none) with
    | some b => some b
    | none => lazySplitGo close k (c :: pre) cs

/-- Tail of the tool-call pattern after the sql content: whitespace run,
then the closing tool-call tag. -/
def tailCont (dOpt : Option (List Char)) (q rest2 : List Char) :
    Option (Option (List Char) × List Char × List Char) :=
  match matchCI TOOL_CLOSE (rest2.dropWhile isSpacePy) with
  | none => none
  | some r5 => some (dOpt, q, r5)

/-- The `<sql>(.*?)</sql>` part of the pattern and everything after it. -/
def sqlCont (dOpt : Option (List Char)) (r2 : List Char) :
    Option (Option (List Char) × List Char × List Char) :=
  match matchCI SQL_OPEN r2 with
  | none => none
  | some r3 => lazySplitGo SQL_CLOSE (tailCont dOpt) [] r3

/-- Continuation after a captured description: whitespace run, then the sql
sub-pattern. -/
def descCont (d rest : List Char) :
    Option (Option (List Char) × List Char × List Char) :=
  sqlCont (some d) (rest.dropWhile isSpacePy)

/-- Attempt the full tool-call pattern at the head of `s`, mirroring the
compiled regex of `_extract_tool_calls` (agent_v2.py lines 134-140).
Returns the captured optional description, the captured sql text, and the
text after the match. -/
def matchToolBlock (s : List Char) :
    Option (Option (List Char) × List Char × List Char) :=
  match matchCI TOOL_OPEN s with
  | none => none
  | some s1 =>
    let s2 := s1.dropWhile isSpacePy
    match (match matchCI DESC_OPEN s2 with
           | none => none
           | some s3 => lazySplitGo DESC_CLOSE descCont [] s3) with
    | some res => some res
    | none => sqlCont none s2

/-- `re.finditer` scan: try the pattern at every position, emit each match
and continue after its end; fuelled by the text length (every step either
consumes a match of at least one character or advances one character). -/
def findToolBlocksGo : Nat → List Char → List (Option (List Char) × List Char)
  | 0, _ => []
  | _ + 1, [] => []
  | fuel + 1, c :: cs =>
    match matchToolBlock (c :: cs) with
    | some (d, q, rest) => (d, q) :: findToolBlocksGo fuel rest
    | none => findToolBlocksGo fuel cs

def findToolBlocks (text : List Char) : List (Option (List Char) × List Char) :=
  findToolBlocksGo text.length text

/-- A parsed tool call: description and sql, as the dict built by
`_extract_tool_calls`. -/
structure ToolCall where
  description : List Char
  sql : List Char
  deriving DecidableEq

def defaultDescr : List Char := "Running query…".data

/-- Build the dict for one match: `(m.group(1) or "Running query…").strip()`
and `m.group(2).strip()`.  An absent group is `none`; an empty captured
group is falsy in Python and also takes the default. -/
def toToolCall (dq : Option (List Char) × List Char) : ToolCall :=
  { description := trimLC (match dq.1 with
      | none => defaultDescr
      | some [] => defaultDescr
      | some d => d),
    sql := trimLC dq.2 }

/-- `_extract_tool_calls` (agent_v2.py lines 128-146). -/
def extract_tool_calls (text : List Char) : List ToolCall :=
  (findToolBlocks text).map toToolCall

/-- Split at the first case-insensitive occurrence of `close`, returning
the text after it. -/
def firstSplitCI (close : List Char) : List Char → Option (List Char)
  | [] => none
  | c :: cs =>
    if startsWithCI close (c :: cs) then some ((c :: cs).drop close.length)
    else firstSplitCI close cs

/-- `re.sub` scan for the pattern removing lazily-delimited tool-call
blocks; here the lazy group has an empty continuation, so it is exactly
the first occurrence of the closing tag. -/
def stripGo : Nat → List Char → List Char
  | 0, s => s
  | _ + 1, [] => []
  | fuel + 1, c :: cs =>
    if startsWithCI TOOL_OPEN (c :: cs) then
      match firstSplitCI TOOL_CLOSE ((c :: cs).drop TOOL_OPEN.length) with
      | some rest => stripGo fuel rest
      | none => c :: stripGo fuel cs
    else c :: stripGo fuel cs

/-- `_strip_tool_calls` (agent_v2.py lines 149-156). -/
def strip_tool_calls (text : List Char) : List Char :=
  trimLC (stripGo text.length text)

/-! ### Query executor (`execute_sql`, agent_v2.py lines 331-361) -/

/-- Behaviour of the warehouse on one statement: a successful cursor (the
column names and the full stream of available rows, plus the measured
elapsed seconds), an engine-reported `ProgrammingError`, or any other
exception. -/
inductive DbReply (ρ : Type) where
  | ok (columns : List (List Char)) (available : List ρ) (elapsedSec : Nat)
  | progErr (msg : List Char)
  | exn (msg : List Char)

/-- The result dict of `execute_sql`: either an error entry or the
columns/rows/row_count/truncated/elapsed_sec entries. -/
inductive ExecResult (ρ : Type) where
  | err (msg : List Char)
  | success (columns : List (List Char)) (rows : List ρ) (rowCount : Nat)
      (truncated : Bool) (elapsedSec : Nat)

/-- One call of `execute_sql` with its observable side effects: the result
dict, the per-question query counter after the call, and the statements
actually issued to the warehouse connection during the call. -/
structure ExecOutcome (ρ : Type) where
  result : ExecResult ρ
  queryCount : Nat
  dbQueries : List (List Char)

def MAX_ROWS : Nat := 50

def PERMITTED_MSG : List Char := "Only SELECT / WITH queries are permitted.".data

/-- The allow-list test of `execute_sql` (agent_v2.py lines 336-338):
`sql.strip().upper().lstrip("(").lstrip()` must start with `SELECT` or
`WITH`.  Python `lstrip("(")` removes every leading parenthesis
character, and the following `lstrip()` removes one leading whitespace
run. -/
def isAllowedSql (sql : List Char) : Bool :=
  let normalised := trimL ((toUpperL (trimLC sql)).dropWhile (fun c => c == '('))
  beginsWith "SELECT".data normalised || beginsWith "WITH".data normalised

/-- `execute_sql` (agent_v2.py lines 331-361).  `db` is the warehouse
connection; `queryCount` is `self._query_count` before the call.  On a
successful cursor the code fetches at most `MAX_ROWS` rows, sets
`truncated` to `len(rows) == MAX_ROWS`, and increments the counter; both
exception paths return an error dict and leave the counter unchanged. -/
def execute_sql (db : List Char → DbReply ρ) (queryCount : Nat)
    (sql : List Char) : ExecOutcome ρ :=
  let sqlClean := trimLC sql
  if isAllowedSql sql then
    match db sqlClean with
    | .ok columns available elapsedSec =>
      let rows := available.take MAX_ROWS
      { result := .success columns rows rows.length (rows.length == MAX_ROWS) elapsedSec,
        queryCount := queryCount + 1,
        dbQueries := [sqlClean] }
    | .progErr m =>
      { result := .err m, queryCount := queryCount, dbQueries := [sqlClean] }
    | .exn m =>
      { result := .err ("Unexpected error: ".data ++ m), queryCount := queryCount,
        dbQueries := [sqlClean] }
  else
    { result := .err PERMITTED_MSG, queryCount := queryCount, dbQueries := [] }

def isSuccessR : ExecResult ρ → Bool
  | .success .. => true
  | .err _ => false

/-! ### Turn orchestrator (`ask`, agent_v2.py lines 397-483) -/

/-- What `ask` returns together with its observable state: the answer
string, the per-question query counter, the number of inference calls
performed, and every result dict produced by `execute_sql` during the
question, in order. -/
structure AskResult (ρ : Type) where
  answer : List Char
  queryCount : Nat
  apiCalls : Nat
  execResults : List (ExecResult ρ)

def MAX_LOOPS : Nat := 5

def FALLBACK_ANSWER : List Char :=
  "⚠️  Could not produce a final answer within the allowed iterations.".data

def API_ERROR_LABEL : List Char := "❌  API error: ".data

/-- The inner loop of `ask` over one response's tool calls (agent_v2.py
lines 436-467): execute each sql in order, accumulate the results block
(`serialize` models `json.dumps` with the custom encoder), thread the
query counter, and record each result dict. -/
def runCalls (db : List Char → DbReply ρ) (serialize : ExecResult ρ → List Char) :
    List ToolCall → Nat → List Char × Nat × List (ExecResult ρ)
  | [], queryCount => ([], queryCount, [])
  | call :: rest, queryCount =>
    let out := execute_sql db queryCount call.sql
    let seg := match out.result with
      | .err m =>
        "\n[Result for: ".data ++ call.description ++ "]\nERROR: ".data ++ m ++ "\n".data
      | r =>
        "\n[Result for: ".data ++ call.description ++ "]\n".data ++
        "```json\n".data ++ serialize r ++ "\n```\n".data
    let restOut := runCalls db serialize rest out.queryCount
    (seg ++ restOut.1, restOut.2.1, out.result :: restOut.2.2)

/-- The bounded loop of `ask` (agent_v2.py lines 420-483).  `oracle` models
`_call_api`: given the number of inference calls already made this
question and the outgoing query text, it either raises (`Except.error`,
caught and turned into the user-visible error string) or returns the
assistant text.  One inference call happens per iteration. -/
def askGo (oracle : Nat → List Char → Except (List Char) (List Char))
    (db : List Char → DbReply ρ) (serialize : ExecResult ρ → List Char)
    (question : List Char) :
    Nat → Nat → List Char → Nat → List (ExecResult ρ) → AskResult ρ
  | 0, apiCalls, _, queryCount, execResults =>
    { answer := FALLBACK_ANSWER, queryCount := queryCount,
      apiCalls := apiCalls, execResults := execResults }
  | n + 1, apiCalls, currentQuery, queryCount, execResults =>
    match oracle apiCalls currentQuery with
    | .error e =>
      { answer := API_ERROR_LABEL ++ e, queryCount := queryCount,
        apiCalls := apiCalls + 1, execResults := execResults }
    | .ok responseText =>
      match extract_tool_calls responseText with
      | [] =>
        { answer := strip_tool_calls responseText, queryCount := queryCount,
          apiCalls := apiCalls + 1, execResults := execResults }
      | tc :: tcs =>
        let ran := runCalls db serialize (tc :: tcs) queryCount
        let narrativeOnly := trimLC (strip_tool_calls responseText)
        let contextNote := match narrativeOnly with
          | [] => ([] : List Char)
          | _ => "\nYour earlier analysis:\n".data ++ narrativeOnly ++ "\n".data
        let nextQuery :=
          "Original question: ".data ++ question ++ "\n".data ++ contextNote ++
          "\n".data ++ "Snowflake query results:\n".data ++ ran.1 ++ "\n\n".data ++
          "Using the data above, write a clear, concise business-narrative answer to the original question. Do NOT output any <tool_call> blocks.".data
        askGo oracle db serialize question n (apiCalls + 1) nextQuery ran.2.1
          (execResults ++ ran.2.2)

/-- `ask` (agent_v2.py lines 397-483): reset the per-question counter, set
the payload to the raw question, and run at most `MAX_LOOPS` iterations. -/
def ask (oracle : Nat → List Char → Except (List Char) (List Char))
    (db : List Char → DbReply ρ) (serialize : ExecResult ρ → List Char)
    (question : List Char) : AskResult ρ :=
  askGo oracle db serialize question MAX_LOOPS 0 question 0 []

/-! ### Inference-client answer extraction (`_call_api`,
agent_v2.py lines 285-327) -/

/-- JSON values as decoded by `resp.json()`. -/
inductive Json where
  | null
  | str (s : List Char)
  | num (n : Int)
  | bool (b : Bool)
  | arr (xs : List Json)
  | obj (fields : List (List Char × Json))

/-- Python truthiness of a decoded JSON value. -/
def truthy : Json → Bool
  | .null => false
  | .str [] => false
  | .str (_ :: _) => true
  | .num n => !(n == 0)
  | .bool b => b
  | .arr [] => false
  | .arr (_ :: _) => true
  | .obj [] => false
  | .obj (_ :: _) => true

/-- Python `dict.get` on a decoded JSON object (keys are unique, so the
first binding wins). -/
def jget : List (List Char × Json) → List Char → Option Json
  | [], _ => none
  | (k, v) :: rest, key => if k == key then some v else jget rest key

/-- Python `x.get(key) or {}`: a missing or falsy value becomes the empty
dict. -/
def orEmptyObj : Option Json → Json
  | some v => if truthy v then v else .obj []
  | none => .obj []

def RESULT_KEY : List Char := "result".data

def ANSWER_KEY : List Char := "answer".data

def MODEL_KEY : List Char := "anthropic_direct.claude-v4-6-sonnet".data

def FB_KEYS : List (List Char) :=
  ["response".data, "output".data, "text".data, "message".data, "content".data]

/-- Fallback 1 of `_call_api`: the first value in the answer object that is
a string with non-empty strip, stripped. -/
def firstStrValue : List (List Char × Json) → Option (List Char)
  | [] => none
  | (_, Json.str s) :: rest =>
    if trimLC s == [] then firstStrValue rest else some (trimLC s)
  | _ :: rest => firstStrValue rest

/-- One source of fallback 2: scan the well-known keys in order and take
the first string value with non-empty strip. -/
def findKeyAnswer (src : List (List Char × Json)) : List (List Char) → Option (List Char)
  | [] => none
  | k :: ks =>
    match jget src k with
    | some (Json.str s) =>
      if trimLC s == [] then findKeyAnswer src ks else some (trimLC s)
    | _ => findKeyAnswer src ks

/-- Fallback 2 of `_call_api`: the well-known keys, first on the top-level
payload, then on the result object. -/
def fallback2 (data resultFields : List (List Char × Json)) : Option (List Char) :=
  match findKeyAnswer data FB_KEYS with
  | some s => some s
  | none => findKeyAnswer resultFields FB_KEYS

/-- Outcome of the answer-extraction part of `_call_api`: the returned
answer text, the `RuntimeError` raised on an unrecognised response shape
(carrying the raw payload, which the code prints for diagnosis before
raising), or the `AttributeError` Python would raise when a probed value
has an unexpected type. -/
inductive ApiAnswer where
  | ok (answer : List Char)
  | shapeError (raw : List (List Char × Json))
  | typeError

/-- The chain of assignments after the primary probe, with Python's
`if not answer` emptiness tests: fallback 1 if the answer is still empty,
then fallback 2, then return or raise. -/
def afterPrimary (data resultFields answerFields : List (List Char × Json))
    (a0 : List Char) : ApiAnswer :=
  let a1 := if a0 = [] then (firstStrValue answerFields).getD [] else a0
  let a2 := if a1 = [] then (fallback2 data resultFields).getD [] else a1
  if a2 = [] then ApiAnswer.shapeError data else ApiAnswer.ok a2

/-- The answer-extraction logic of `_call_api` (agent_v2.py lines
293-327), applied to the decoded top-level JSON object. -/
def extractAnswer (data : List (List Char × Json)) : ApiAnswer :=
  match orEmptyObj (jget data RESULT_KEY) with
  | Json.obj resultFields =>
    (match orEmptyObj (jget resultFields ANSWER_KEY) with
     | Json.obj answerFields =>
       (match jget answerFields MODEL_KEY with
        | some (Json.str s) => afterPrimary data resultFields answerFields (trimLC s)
        | none => afterPrimary data resultFields answerFields []
        | some _ => ApiAnswer.typeError)
     | _ => ApiAnswer.typeError)
  | _ => ApiAnswer.typeError

/-- The result object probed by `_call_api`, empty when absent or falsy. -/
def resultFieldsOf (data : List (List Char × Json)) : List (List Char × Json) :=
  match orEmptyObj (jget data RESULT_KEY) with
  | Json.obj rf => rf
  | _ => []

/-- The answer object probed by `_call_api`, empty when absent or falsy. -/
def answerFieldsOf (data : List (List Char × Json)) : List (List Char × Json) :=
  match orEmptyObj (jget (resultFieldsOf data) ANSWER_KEY) with
  | Json.obj af => af
  | _ => []

/-- Strategy 1 of the claim: the known nested answer path
`result.answer.<model key>`, when it holds a string with non-empty
strip. -/
def strat1 (data : List (List Char × Json)) : Option (List Char) :=
  match jget (answerFieldsOf data) MODEL_KEY with
  | some (Json.str s) => match trimLC s with
    | [] => none
    | _ => some (trimLC s)
  | _ => none

/-- Strategy 2 of the claim: any non-empty string sibling in the answer
object. -/
def strat2 (data : List (List Char × Json)) : Option (List Char) :=
  firstStrValue (answerFieldsOf data)

/-- Strategy 3 of the claim: the short list of well-known top-level or
result keys. -/
def strat3 (data : List (List Char × Json)) : Option (List Char) :=
  fallback2 data (resultFieldsOf data)

/-- The response shapes on which `_call_api`'s probing runs without a
Python type error: the result and answer slots are dicts (or absent or
falsy), and the model key, when present, holds a string. -/
def wellShaped (data : List (List Char × Json)) : Bool :=
  match orEmptyObj (jget data RESULT_KEY) with
  | Json.obj rf =>
    (match orEmptyObj (jget rf ANSWER_KEY) with
     | Json.obj af =>
       (match jget af MODEL_KEY with
        | some (Json.str _) => true
        | none => true
        | some _ => false)
     | _ => false)
  | _ => false

/-! ### Structured model of well-formed tool-call markup, for the parser
claim.  A rendered block is the concrete text of one well-formed
tool-call: each tag is an arbitrary casing of the canonical tag, the
three interior whitespace runs are arbitrary, the description sub-block
is optional. -/

structure RenderedBlock where
  tagOpen : List Char
  ws1 : List Char
  descr : Option (List Char)
  dOpen : List Char
  dClose : List Char
  ws2 : List Char
  sqlOpen : List Char
  sqlBody : List Char
  sqlClose : List Char
  ws3 : List Char
  tagClose : List Char

def renderBlock (b : RenderedBlock) : List Char :=
  b.tagOpen ++ b.ws1 ++
  (match b.descr with
   | none => []
   | some d => b.dOpen ++ d ++ b.dClose ++ b.ws2) ++
  (b.sqlOpen ++ b.sqlBody ++ b.sqlClose ++ b.ws3 ++ b.tagClose)

/-- `t` is a casing variant of the (lower-case) canonical tag `pat`. -/
def ciIs (t pat : List Char) : Bool := t.map Char.toLower == pat

/-- No character of `xs` is a `<` under lower-casing: such text can never
start a tag, so the regex scan passes through it. -/
def noLt (xs : List Char) : Bool := xs.all (fun c => !(c.toLower == '<'))

def allSpace (w : List Char) : Bool := w.all isSpacePy

def wfBlock (b : RenderedBlock) : Bool :=
  ciIs b.tagOpen TOOL_OPEN && ciIs b.tagClose TOOL_CLOSE &&
  ciIs b.sqlOpen SQL_OPEN && ciIs b.sqlClose SQL_CLOSE &&
  ciIs b.dOpen DESC_OPEN && ciIs b.dClose DESC_CLOSE &&
  allSpace b.ws1 && allSpace b.ws2 && allSpace b.ws3 &&
  (match b.descr with
   | none => true
   | some d => noLt d) &&
  noLt b.sqlBody

/-- A response text as interleaving: prose before each block, the blocks
in document order, trailing prose. -/
def renderDoc : List (List Char × RenderedBlock) → List Char → List Char
  | [], trailing => trailing
  | (p, b) :: rest, trailing => p ++ (renderBlock b ++ renderDoc rest trailing)

def wfDoc (segs : List (List Char × RenderedBlock)) (trailing : List Char) : Bool :=
  segs.all (fun pb => noLt pb.1 && wfBlock pb.2) && noLt trailing

/-- The dict the parser is expected to produce for one well-formed block:
document-order sql, stripped, and the description defaulted when the
sub-block is absent or captured empty. -/
def expectedCall (b : RenderedBlock) : ToolCall :=
  toToolCall (b.descr, b.sqlBody)

/-! ### Concrete test fixtures used by witnesses and counterexamples -/

/-- A warehouse stub whose every statement succeeds with no rows. -/
def dbEmpty : List Char → DbReply Nat := fun _ => DbReply.ok [] [] 0

/-- A warehouse stub whose every statement yields exactly 50 rows. -/
def dbFifty : List Char → DbReply Nat :=
  fun _ => DbReply.ok ["N".data] (List.range 50) 0

/-- A serializer stub. -/
def serNone : ExecResult Nat → List Char := fun _ => []

/-- A model response consisting of one tool call. -/
def toolText : List Char := "<tool_call><sql>SELECT 1</sql></tool_call>".data

/-- A warehouse stub whose every statement yields exactly 3 rows. -/
def dbThree : List Char → DbReply Nat :=
  fun _ => DbReply.ok ["N".data] [0, 1, 2] 7

/-- A payload whose nested answer path holds a string. -/
def dataNested : List (List Char × Json) :=
  [(RESULT_KEY, Json.obj [(ANSWER_KEY, Json.obj [(MODEL_KEY, Json.str "  The answer.  ".data)])])]

/-- A payload in which no strategy can find answer text. -/
def dataOpaque : List (List Char × Json) :=
  [("status".data, Json.str "ok".data)]

/-- A well-formed rendered block with mixed-case tags and a description. -/
def exBlock1 : RenderedBlock :=
  { tagOpen := "<TOOL_call>".data, ws1 := "\n  ".data,
    descr := some " Top accounts ".data,
    dOpen := "<Description>".data, dClose := "</DESCRIPTION>".data,
    ws2 := "\n  ".data,
    sqlOpen := "<SQL>".data, sqlBody := "\n    SELECT a FROM t \n  ".data,
    sqlClose := "</sql>".data, ws3 := "\n".data,
    tagClose := "</Tool_Call>".data }

def exBlock2 : RenderedBlock :=
  { tagOpen := "<tool_call>".data, ws1 := [],
    descr := none,
    dOpen := "<description>".data, dClose := "</description>".data,
    ws2 := [],
    sqlOpen := "<sql>".data, sqlBody := "WITH x AS (SELECT 1) SELECT 2".data,
    sqlClose := "</SQL>".data, ws3 := [],
    tagClose := "</tool_call>".data }

def exSegs : List (List Char × RenderedBlock) :=
  [("Intro text. ".data, exBlock1), (" between ".data, exBlock2)]

def exTrailing : List Char := " the end.".data

/-! ## Theorems -/

/-! ### Query-executor lemmas -/

/-- The query counter advances by one exactly on a success result. -/
theorem execute_sql_count {ρ : Type} (db : List Char → DbReply ρ) (count : Nat)
    (sql : List Char) :
    (execute_sql db count sql).queryCount =
      count + (if isSuccessR (execute_sql db count sql).result then 1 else 0) := by
  by_cases hA : isAllowedSql sql
  · simp only [execute_sql, hA, if_true]
    cases db (trimLC sql) <;> simp [isSuccessR]
  · simp [execute_sql, hA, isSuccessR]

/-- A rejected statement issues no warehouse query; an accepted one issues
exactly the trimmed statement. -/
theorem execute_sql_dbQueries {ρ : Type} (db : List Char → DbReply ρ) (count : Nat)
    (sql : List Char) :
    (execute_sql db count sql).dbQueries =
      (if isAllowedSql sql then [trimLC sql] else []) := by
  by_cases hA : isAllowedSql sql
  · simp only [execute_sql, hA, if_true]
    cases db (trimLC sql) <;> simp
  · simp [execute_sql, hA]

/-- Claim C5: for every input string that fails the allow-list
normalisation (trim, upper-case, strip leading parentheses, strip leading
whitespace, then a SELECT/WITH prefix test), `execute_sql` returns exactly
the permission error, leaves the counter unchanged, and issues no query
against the warehouse — the result is the same for every warehouse. -/
theorem c5_reject_no_warehouse {ρ : Type} (db : List Char → DbReply ρ)
    (count : Nat) (sql : List Char) (h : isAllowedSql sql = false) :
    execute_sql db count sql =
      { result := ExecResult.err PERMITTED_MSG, queryCount := count,
        dbQueries := [] } := by
  simp [execute_sql, h]

/-- Witness for C5 at the concrete statement `DROP TABLE x`. -/
theorem c5_reject_no_warehouse_witness :
    isAllowedSql "DROP TABLE x".data = false ∧
      execute_sql dbEmpty 0 "DROP TABLE x".data =
        { result := ExecResult.err PERMITTED_MSG, queryCount := 0,
          dbQueries := [] } :=
  ⟨by decide, c5_reject_no_warehouse dbEmpty 0 "DROP TABLE x".data (by decide)⟩

/-- Counterexample to C6: the claim says `((SELECT 1))` (two layers of
wrapping parentheses) is rejected, but `lstrip("(")` removes every leading
parenthesis, so the statement is accepted: it is forwarded to the
warehouse and yields a success result, not the permission error. -/
theorem c6_counterexample :
    (execute_sql dbEmpty 0 "((SELECT 1))".data).result =
        ExecResult.success [] [] 0 false 0 ∧
      (execute_sql dbEmpty 0 "((SELECT 1))".data).dbQueries =
        ["((SELECT 1))".data] :=
  ⟨rfl, rfl⟩

/-- Amended C6: a statement is accepted by the allow-list exactly when,
after trimming, upper-casing, removing every leading parenthesis
character and then one leading whitespace run, it begins with `SELECT` or
`WITH`; in particular any number of directly nested opening parentheses is
stripped, so `((SELECT 1))` is accepted. -/
theorem c6_amended_allowlist :
    (∀ (ρ : Type) (db : List Char → DbReply ρ) (count : Nat) (sql : List Char),
      (execute_sql db count sql).dbQueries ≠ [] ↔
        (beginsWith "SELECT".data
            (trimL ((toUpperL (trimLC sql)).dropWhile (fun c => c == '('))) = true ∨
         beginsWith "WITH".data
            (trimL ((toUpperL (trimLC sql)).dropWhile (fun c => c == '('))) = true)) ∧
      isAllowedSql "((SELECT 1))".data = true := by
  refine ⟨fun ρ db count sql => ?_, by decide⟩
  rw [execute_sql_dbQueries]
  by_cases hA : isAllowedSql sql
  · simp only [hA, if_true]
    constructor
    · intro _
      have := hA
      rw [isAllowedSql] at this
      simpa [Bool.or_eq_true] using this
    · intro _
      simp
  · simp only [hA, if_false]
    constructor
    · intro h
      exact absurd rfl h
    · intro h
      exfalso
      apply hA
      rw [isAllowedSql]
      simpa [Bool.or_eq_true] using h

/-- Claim C10: the allow-list is a character-prefix test, not a keyword
token test.  `WITHDRAW FUNDS FROM ACCOUNTS` is not a SELECT or WITH
statement (its trimmed upper-cased form begins with `WITHDRAW`, so its
first token is neither keyword), yet the allow-list does not reject it:
the statement is forwarded to the warehouse and executes. -/
theorem c10_prefix_test_forwards_withdraw :
    beginsWith "WITHDRAW".data
        (toUpperL (trimLC "WITHDRAW FUNDS FROM ACCOUNTS".data)) = true ∧
      beginsWith "SELECT".data
        (toUpperL (trimLC "WITHDRAW FUNDS FROM ACCOUNTS".data)) = false ∧
      beginsWith "WITH ".data
        (toUpperL (trimLC "WITHDRAW FUNDS FROM ACCOUNTS".data)) = false ∧
      (execute_sql dbEmpty 0 "WITHDRAW FUNDS FROM ACCOUNTS".data).dbQueries =
        ["WITHDRAW FUNDS FROM ACCOUNTS".data] ∧
      (execute_sql dbEmpty 0 "WITHDRAW FUNDS FROM ACCOUNTS".data).result =
        ExecResult.success [] [] 0 false 0 :=
  ⟨by decide, by decide, by decide, rfl, rfl⟩

/-- Counterexample to C4: a query with exactly 50 available rows has
`R = 50 ≤ 50`, but the code sets `truncated` to `len(rows) == MAX_ROWS`,
which is `true` here — contradicting the claim that every query with
`R ≤ 50` available rows yields `truncated == false`. -/
theorem c4_counterexample :
    (List.range 50).length ≤ MAX_ROWS ∧
      (execute_sql dbFifty 0 "SELECT A".data).result =
        ExecResult.success ["N".data] (List.range 50) 50 true 0 :=
  ⟨by decide, rfl⟩

/-- Amended C4: every success result of `execute_sql` satisfies
`row_count = len(rows) ≤ MAX_ROWS` and `truncated` holds iff
`row_count = MAX_ROWS`; a query with `R < 50` available rows yields
`row_count = R` and `truncated = false`, and one with at least 50
available rows yields exactly 50 rows with `truncated = true`. -/
theorem c4_amended_row_limit {ρ : Type} (db : List Char → DbReply ρ)
    (count : Nat) (sql : List Char) :
    (∀ c r rc t e,
        (execute_sql db count sql).result = ExecResult.success c r rc t e →
          rc = r.length ∧ rc ≤ MAX_ROWS ∧ (t = true ↔ rc = MAX_ROWS)) ∧
      (∀ cols avail el, db (trimLC sql) = DbReply.ok cols avail el →
        isAllowedSql sql = true →
          ((avail.length < MAX_ROWS →
              (execute_sql db count sql).result =
                ExecResult.success cols avail avail.length false el) ∧
            (MAX_ROWS ≤ avail.length →
              (execute_sql db count sql).result =
                ExecResult.success cols (avail.take MAX_ROWS) MAX_ROWS true el))) := by
  constructor
  · intro c r rc t e h
    by_cases hA : isAllowedSql sql
    · rw [execute_sql] at h
      simp only [hA, if_true] at h
      cases hdb : db (trimLC sql) with
      | ok cols avail el =>
        rw [hdb] at h
        simp only [ExecResult.success.injEq] at h
        obtain ⟨-, hr, hrc, ht, -⟩ := h
        subst hr hrc
        refine ⟨rfl, ?_, ?_⟩
        · exact List.length_take_le MAX_ROWS avail
        · rw [← ht]
          simp [beq_iff_eq]
      | progErr m => rw [hdb] at h; cases h
      | exn m => rw [hdb] at h; cases h
    · rw [execute_sql] at h
      simp only [hA, if_false] at h
      cases h
  · intro cols avail el hdb hA
    have hres : (execute_sql db count sql).result =
        ExecResult.success cols (avail.take MAX_ROWS) (avail.take MAX_ROWS).length
          ((avail.take MAX_ROWS).length == MAX_ROWS) el := by
      rw [execute_sql]
      simp only [hA, if_true, hdb]
    constructor
    · intro hlt
      have htake : avail.take MAX_ROWS = avail :=
        List.take_of_length_le (Nat.le_of_lt hlt)
      rw [hres, htake]
      have : (avail.length == MAX_ROWS) = false := by
        simp [Nat.ne_of_lt hlt]
      rw [this]
    · intro hge
      have hlen : (avail.take MAX_ROWS).length = MAX_ROWS := by
        simp [List.length_take, Nat.min_eq_left hge]
      rw [hres, hlen]
      simp

/-- Witness for C4 at a concrete warehouse returning 3 available rows. -/
theorem c4_amended_row_limit_witness :
    ((execute_sql dbThree 0 "SELECT A".data).result =
        ExecResult.success ["N".data] [0, 1, 2] 3 false 7) ∧
      (3 = ([0, 1, 2] : List Nat).length ∧ 3 ≤ MAX_ROWS ∧
        (false = true ↔ 3 = MAX_ROWS)) := by
  have h := (c4_amended_row_limit dbThree 0 "SELECT A".data).2
    ["N".data] [0, 1, 2] 7 rfl (by decide)
  have hres := h.1 (by decide)
  exact ⟨hres,
    (c4_amended_row_limit dbThree 0 "SELECT A".data).1 _ _ _ _ _ hres⟩

/-! ### Orchestrator lemmas -/

/-- Stepping `askGo` when the inference call raises. -/
theorem askGo_step_err {ρ : Type}
    (oracle : Nat → List Char → Except (List Char) (List Char))
    (db : List Char → DbReply ρ) (serialize : ExecResult ρ → List Char)
    (question : List Char) {n apiCalls count : Nat} {q e : List Char}
    {res : List (ExecResult ρ)}
    (h : oracle apiCalls q = Except.error e) :
    askGo oracle db serialize question (n + 1) apiCalls q count res =
      { answer := API_ERROR_LABEL ++ e, queryCount := count,
        apiCalls := apiCalls + 1, execResults := res } := by
  rw [askGo, h]

/-- Stepping `askGo` when the response carries no tool calls: the loop
breaks with the stripped response as the final answer. -/
theorem askGo_step_done {ρ : Type}
    (oracle : Nat → List Char → Except (List Char) (List Char))
    (db : List Char → DbReply ρ) (serialize : ExecResult ρ → List Char)
    (question : List Char) {n apiCalls count : Nat} {q t : List Char}
    {res : List (ExecResult ρ)}
    (h : oracle apiCalls q = Except.ok t) (hT : extract_tool_calls t = []) :
    askGo oracle db serialize question (n + 1) apiCalls q count res =
      { answer := strip_tool_calls t, queryCount := count,
        apiCalls := apiCalls + 1, execResults := res } := by
  rw [askGo, h]
  dsimp only
  rw [hT]

/-- Stepping `askGo` when the response carries tool calls: they are run in
order and the loop continues on some follow-up payload. -/
theorem askGo_step_tools {ρ : Type}
    (oracle : Nat → List Char → Except (List Char) (List Char))
    (db : List Char → DbReply ρ) (serialize : ExecResult ρ → List Char)
    (question : List Char) {n apiCalls count : Nat} {q t : List Char}
    {res : List (ExecResult ρ)} {tc : ToolCall} {tcs : List ToolCall}
    (h : oracle apiCalls q = Except.ok t)
    (hT : extract_tool_calls t = tc :: tcs) :
    ∃ q2, askGo oracle db serialize question (n + 1) apiCalls q count res =
      askGo oracle db serialize question n (apiCalls + 1) q2
        (runCalls db serialize (tc :: tcs) count).2.1
        (res ++ (runCalls db serialize (tc :: tcs) count).2.2) := by
  rw [askGo, h]
  dsimp only
  rw [hT]
  exact ⟨_, rfl⟩

/-- `askGo` performs at most one inference call per remaining iteration. -/
theorem askGo_apiCalls_le {ρ : Type}
    (oracle : Nat → List Char → Except (List Char) (List Char))
    (db : List Char → DbReply ρ) (serialize : ExecResult ρ → List Char)
    (question : List Char) :
    ∀ (n apiCalls : Nat) (q : List Char) (count : Nat)
      (res : List (ExecResult ρ)),
      (askGo oracle db serialize question n apiCalls q count res).apiCalls ≤
        apiCalls + n := by
  intro n
  induction n with
  | zero =>
    intro apiCalls q count res
    simp [askGo]
  | succ n ih =>
    intro apiCalls q count res
    cases hO : oracle apiCalls q with
    | error e =>
      rw [askGo_step_err oracle db serialize question hO]
      dsimp only
      omega
    | ok t =>
      cases hT : extract_tool_calls t with
      | nil =>
        rw [askGo_step_done oracle db serialize question hO hT]
        dsimp only
        omega
      | cons tc tcs =>
        obtain ⟨q2, hstep⟩ :=
          askGo_step_tools oracle db serialize question hO hT
        rw [hstep]
        calc (askGo oracle db serialize question n (apiCalls + 1) q2 _ _).apiCalls
            ≤ (apiCalls + 1) + n := ih (apiCalls + 1) _ _ _
          _ = apiCalls + (n + 1) := by omega

/-- Claim C1: `ask` performs at most `MAX_LOOPS` inference calls per
question, regardless of the model's responses and of how many tool calls
they contain. -/
theorem c1_ask_api_call_budget {ρ : Type}
    (oracle : Nat → List Char → Except (List Char) (List Char))
    (db : List Char → DbReply ρ) (serialize : ExecResult ρ → List Char)
    (question : List Char) :
    (ask oracle db serialize question).apiCalls ≤ MAX_LOOPS := by
  have h := askGo_apiCalls_le oracle db serialize question MAX_LOOPS 0 question 0 []
  simpa [ask] using h

/-- If every inference reply in the remaining budget carries at least one
tool call, `askGo` ends with the fixed fallback answer. -/
theorem askGo_all_tools_fallback {ρ : Type}
    (oracle : Nat → List Char → Except (List Char) (List Char))
    (db : List Char → DbReply ρ) (serialize : ExecResult ρ → List Char)
    (question : List Char) :
    ∀ (n apiCalls : Nat) (q : List Char) (count : Nat)
      (res : List (ExecResult ρ)),
      (∀ i q2, apiCalls ≤ i → i < apiCalls + n →
        ∃ t, oracle i q2 = Except.ok t ∧ extract_tool_calls t ≠ []) →
      (askGo oracle db serialize question n apiCalls q count res).answer =
        FALLBACK_ANSWER := by
  intro n
  induction n with
  | zero =>
    intro apiCalls q count res _
    simp [askGo]
  | succ n ih =>
    intro apiCalls q count res h
    obtain ⟨t, hok, htools⟩ :=
      h apiCalls q (Nat.le_refl _) (by omega)
    cases hT : extract_tool_calls t with
    | nil => exact absurd hT htools
    | cons tc tcs =>
      obtain ⟨q2, hstep⟩ :=
        askGo_step_tools oracle db serialize question hok hT
      rw [hstep]
      exact ih (apiCalls + 1) _ _ _ (fun i q2 h1 h2 => h i q2 (by omega) (by omega))

/-- Claim C2: if all of the `MAX_LOOPS` model responses contain at least
one tool call (no tag-free response ever arrives), `ask` returns the fixed
budget-exhaustion fallback string. -/
theorem c2_budget_exhaustion_fallback {ρ : Type}
    (oracle : Nat → List Char → Except (List Char) (List Char))
    (db : List Char → DbReply ρ) (serialize : ExecResult ρ → List Char)
    (question : List Char)
    (h : ∀ i q2, i < MAX_LOOPS →
      ∃ t, oracle i q2 = Except.ok t ∧ extract_tool_calls t ≠ []) :
    (ask oracle db serialize question).answer = FALLBACK_ANSWER := by
  rw [ask]
  exact askGo_all_tools_fallback oracle db serialize question MAX_LOOPS 0
    question 0 [] (fun i q2 _ h2 => h i q2 (by simpa using h2))

/-- Witness for C2: an oracle that answers every call with a tool call. -/
theorem c2_budget_exhaustion_fallback_witness :
    (ask (fun _ _ => Except.ok toolText) dbEmpty serNone "Q".data).answer =
      FALLBACK_ANSWER :=
  c2_budget_exhaustion_fallback (fun _ _ => Except.ok toolText) dbEmpty serNone
    "Q".data (fun i q2 _ => ⟨toolText, rfl, by decide⟩)

/-- Claim C3: if the inference call fails on the first iteration, `ask`
returns the user-visible error string immediately: exactly one inference
call was attempted (no retry), no query was executed, and the per-question
counter is zero. -/
theorem c3_first_call_failure_aborts {ρ : Type}
    (oracle : Nat → List Char → Except (List Char) (List Char))
    (db : List Char → DbReply ρ) (serialize : ExecResult ρ → List Char)
    (question : List Char) (e : List Char)
    (h : oracle 0 question = Except.error e) :
    ask oracle db serialize question =
      { answer := API_ERROR_LABEL ++ e, queryCount := 0, apiCalls := 1,
        execResults := [] } := by
  have hL : MAX_LOOPS = 4 + 1 := rfl
  rw [ask, hL, askGo_step_err oracle db serialize question h]

/-- Witness for C3 at a concrete failing oracle. -/
theorem c3_first_call_failure_aborts_witness :
    ask (fun _ _ => Except.error "boom".data) dbEmpty serNone "Q".data =
      { answer := API_ERROR_LABEL ++ "boom".data, queryCount := 0,
        apiCalls := 1, execResults := [] } :=
  c3_first_call_failure_aborts (fun _ _ => Except.error "boom".data) dbEmpty
    serNone "Q".data "boom".data rfl

/-- `runCalls` advances the counter by exactly the number of success
results it produces, and records one result per tool call. -/
theorem runCalls_count {ρ : Type} (db : List Char → DbReply ρ)
    (serialize : ExecResult ρ → List Char) :
    ∀ (tcs : List ToolCall) (count : Nat),
      (runCalls db serialize tcs count).2.1 =
        count + ((runCalls db serialize tcs count).2.2.filter isSuccessR).length := by
  intro tcs
  induction tcs with
  | nil => intro count; simp [runCalls]
  | cons tc rest ih =>
    intro count
    rw [runCalls]
    dsimp only
    rw [ih (execute_sql db count tc.sql).queryCount, execute_sql_count]
    cases hS : isSuccessR (execute_sql db count tc.sql).result with
    | false => simp [List.filter, hS]
    | true =>
      simp [List.filter, hS]
      omega

/-- Through the loop, the counter stays equal to the number of success
results recorded so far. -/
theorem askGo_count {ρ : Type}
    (oracle : Nat → List Char → Except (List Char) (List Char))
    (db : List Char → DbReply ρ) (serialize : ExecResult ρ → List Char)
    (question : List Char) :
    ∀ (n apiCalls : Nat) (q : List Char) (count : Nat)
      (res : List (ExecResult ρ)),
      count = (res.filter isSuccessR).length →
      (askGo oracle db serialize question n apiCalls q count res).queryCount =
        (((askGo oracle db serialize question n apiCalls q count res).execResults).filter
            isSuccessR).length := by
  intro n
  induction n with
  | zero =>
    intro apiCalls q count res h
    simpa [askGo] using h
  | succ n ih =>
    intro apiCalls q count res h
    cases hO : oracle apiCalls q with
    | error e =>
      rw [askGo_step_err oracle db serialize question hO]
      simpa using h
    | ok t =>
      cases hT : extract_tool_calls t with
      | nil =>
        rw [askGo_step_done oracle db serialize question hO hT]
        simpa using h
      | cons tc tcs =>
        obtain ⟨q2, hstep⟩ :=
          askGo_step_tools oracle db serialize question hO hT
        rw [hstep]
        apply ih
        rw [runCalls_count, List.filter_append, List.length_append, h]

/-- Claim C9: the per-question counter is incremented exactly once by each
`execute_sql` call that returns a success result and left unchanged by
every error result; consequently, after `ask` returns, the counter equals
the number of successfully executed queries for that question. -/
theorem c9_query_counter_counts_successes (ρ : Type) :
    (∀ (db : List Char → DbReply ρ) (count : Nat) (sql : List Char),
        (execute_sql db count sql).queryCount =
          count + (if isSuccessR (execute_sql db count sql).result then 1 else 0)) ∧
      (∀ (oracle : Nat → List Char → Except (List Char) (List Char))
          (db : List Char → DbReply ρ) (serialize : ExecResult ρ → List Char)
          (question : List Char),
        (ask oracle db serialize question).queryCount =
          (((ask oracle db serialize question).execResults).filter isSuccessR).length) := by
  refine ⟨fun db count sql => execute_sql_count db count sql,
    fun oracle db serialize question => ?_⟩
  rw [ask]
  exact askGo_count oracle db serialize question MAX_LOOPS 0 question 0 [] rfl

/-! ### Inference-client extraction lemmas -/

/-- Fallback 1 only ever selects a non-empty stripped string. -/
theorem firstStrValue_some_ne_nil :
    ∀ (fs : List (List Char × Json)) (s : List Char),
      firstStrValue fs = some s → s ≠ [] := by
  intro fs
  induction fs with
  | nil => intro s h; cases h
  | cons kv rest ih =>
    intro s h
    match kv with
    | (k, Json.str v) =>
      rw [firstStrValue] at h
      by_cases hv : trimLC v == []
      · rw [if_pos hv] at h
        exact ih s h
      · rw [if_neg hv] at h
        cases h
        simpa using hv
    | (k, Json.null) => exact ih s h
    | (k, Json.num n) => exact ih s h
    | (k, Json.bool b) => exact ih s h
    | (k, Json.arr xs) => exact ih s h
    | (k, Json.obj o) => exact ih s h

/-- Fallback 2's key scan only ever selects a non-empty stripped string. -/
theorem findKeyAnswer_some_ne_nil (src : List (List Char × Json)) :
    ∀ (ks : List (List Char)) (s : List Char),
      findKeyAnswer src ks = some s → s ≠ [] := by
  intro ks
  induction ks with
  | nil => intro s h; cases h
  | cons k rest ih =>
    intro s h
    rw [findKeyAnswer] at h
    match hj : jget src k with
    | some (Json.str v) =>
      rw [hj] at h
      dsimp only at h
      by_cases hv : trimLC v == []
      · rw [if_pos hv] at h
        exact ih s h
      · rw [if_neg hv] at h
        cases h
        simpa using hv
    | some Json.null => rw [hj] at h; exact ih s h
    | some (Json.num n) => rw [hj] at h; exact ih s h
    | some (Json.bool b) => rw [hj] at h; exact ih s h
    | some (Json.arr xs) => rw [hj] at h; exact ih s h
    | some (Json.obj o) => rw [hj] at h; exact ih s h
    | none => rw [hj] at h; exact ih s h

/-- Fallback 2 only ever selects a non-empty stripped string. -/
theorem fallback2_some_ne_nil (d rf : List (List Char × Json)) (s : List Char)
    (h : fallback2 d rf = some s) : s ≠ [] := by
  rw [fallback2] at h
  match h1 : findKeyAnswer d FB_KEYS with
  | some s1 =>
    rw [h1] at h
    cases h
    exact findKeyAnswer_some_ne_nil d FB_KEYS _ h1
  | none =>
    rw [h1] at h
    exact findKeyAnswer_some_ne_nil rf FB_KEYS s h

/-- A non-empty primary answer is returned as-is. -/
theorem afterPrimary_pos (d rf af : List (List Char × Json)) (a0 : List Char)
    (h : a0 ≠ []) : afterPrimary d rf af a0 = ApiAnswer.ok a0 := by
  simp [afterPrimary, h]

/-- An empty primary answer falls through to fallback 1. -/
theorem afterPrimary_nil_fsv (d rf af : List (List Char × Json)) (s2 : List Char)
    (h : firstStrValue af = some s2) :
    afterPrimary d rf af [] = ApiAnswer.ok s2 := by
  have hne := firstStrValue_some_ne_nil af s2 h
  simp [afterPrimary, h, hne]

/-- With fallback 1 empty, the scan falls through to fallback 2. -/
theorem afterPrimary_nil_fb (d rf af : List (List Char × Json)) (s3 : List Char)
    (h2 : firstStrValue af = none) (h3 : fallback2 d rf = some s3) :
    afterPrimary d rf af [] = ApiAnswer.ok s3 := by
  have hne := fallback2_some_ne_nil d rf s3 h3
  simp [afterPrimary, h2, h3, hne]

/-- With all probes empty, the code raises, exposing the raw payload. -/
theorem afterPrimary_nil_none (d rf af : List (List Char × Json))
    (h2 : firstStrValue af = none) (h3 : fallback2 d rf = none) :
    afterPrimary d rf af [] = ApiAnswer.shapeError d := by
  simp [afterPrimary, h2, h3]

theorem resultFieldsOf_eq (data : List (List Char × Json))
    (rf : List (List Char × Json))
    (h : orEmptyObj (jget data RESULT_KEY) = Json.obj rf) :
    resultFieldsOf data = rf := by
  rw [resultFieldsOf, h]

theorem answerFieldsOf_eq (data rf af : List (List Char × Json))
    (h1 : orEmptyObj (jget data RESULT_KEY) = Json.obj rf)
    (h2 : orEmptyObj (jget rf ANSWER_KEY) = Json.obj af) :
    answerFieldsOf data = af := by
  rw [answerFieldsOf, resultFieldsOf_eq data rf h1, h2]

theorem extractAnswer_eq (data rf af : List (List Char × Json))
    (h1 : orEmptyObj (jget data RESULT_KEY) = Json.obj rf)
    (h2 : orEmptyObj (jget rf ANSWER_KEY) = Json.obj af) :
    extractAnswer data =
      (match jget af MODEL_KEY with
       | some (Json.str s) => afterPrimary data rf af (trimLC s)
       | none => afterPrimary data rf af []
       | some _ => ApiAnswer.typeError) := by
  rw [extractAnswer, h1]
  dsimp only
  rw [h2]

/-- Claim C8: on every payload shape the probing tolerates, the client
never returns an empty answer; it honours the known nested path first,
then any non-empty string sibling at that nesting level, then the short
list of well-known top-level/alternate field names, in that order; and
when all three strategies fail it raises, carrying the raw response body,
instead of returning a string. -/
theorem c8_never_fabricates (data : List (List Char × Json))
    (hW : wellShaped data = true) :
    (∀ s, extractAnswer data = ApiAnswer.ok s → s ≠ []) ∧
      (∀ s, strat1 data = some s → extractAnswer data = ApiAnswer.ok s) ∧
      (strat1 data = none → ∀ s, strat2 data = some s →
        extractAnswer data = ApiAnswer.ok s) ∧
      (strat1 data = none → strat2 data = none → ∀ s, strat3 data = some s →
        extractAnswer data = ApiAnswer.ok s) ∧
      (strat1 data = none → strat2 data = none → strat3 data = none →
        extractAnswer data = ApiAnswer.shapeError data) := by
  cases hjr : orEmptyObj (jget data RESULT_KEY) with
  | null => simp [wellShaped, hjr] at hW
  | str s => simp [wellShaped, hjr] at hW
  | num n => simp [wellShaped, hjr] at hW
  | bool b => simp [wellShaped, hjr] at hW
  | arr xs => simp [wellShaped, hjr] at hW
  | obj rf =>
    cases hja : orEmptyObj (jget rf ANSWER_KEY) with
    | null => simp [wellShaped, hjr, hja] at hW
    | str s => simp [wellShaped, hjr, hja] at hW
    | num n => simp [wellShaped, hjr, hja] at hW
    | bool b => simp [wellShaped, hjr, hja] at hW
    | arr xs => simp [wellShaped, hjr, hja] at hW
    | obj af =>
      have hE := extractAnswer_eq data rf af hjr hja
      have hS1 : strat1 data =
          (match jget af MODEL_KEY with
           | some (Json.str s) =>
             (match trimLC s with
              | [] => none
              | _ => some (trimLC s))
           | _ => none) := by
        rw [strat1, answerFieldsOf_eq data rf af hjr hja]
      have hS2 : strat2 data = firstStrValue af := by
        rw [strat2, answerFieldsOf_eq data rf af hjr hja]
      have hS3 : strat3 data = fallback2 data rf := by
        rw [strat3, resultFieldsOf_eq data rf hjr]
      have nilCase : extractAnswer data = afterPrimary data rf af [] →
          strat1 data = none →
          (∀ s, extractAnswer data = ApiAnswer.ok s → s ≠ []) ∧
            (∀ s, strat1 data = some s → extractAnswer data = ApiAnswer.ok s) ∧
            (strat1 data = none → ∀ s, strat2 data = some s →
              extractAnswer data = ApiAnswer.ok s) ∧
            (strat1 data = none → strat2 data = none → ∀ s, strat3 data = some s →
              extractAnswer data = ApiAnswer.ok s) ∧
            (strat1 data = none → strat2 data = none → strat3 data = none →
              extractAnswer data = ApiAnswer.shapeError data) := by
        intro hE0 h1
        match hfs : firstStrValue af with
        | some s2 =>
          have hOk : extractAnswer data = ApiAnswer.ok s2 := by
            rw [hE0]
            exact afterPrimary_nil_fsv data rf af s2 hfs
          refine ⟨?_, ?_, ?_, ?_, ?_⟩
          · intro s h
            rw [hOk] at h
            cases h
            exact firstStrValue_some_ne_nil af s2 hfs
          · intro s h
            rw [h1] at h
            cases h
          · intro _ s h
            rw [hS2, hfs] at h
            cases h
            exact hOk
          · intro _ h2
            rw [hS2, hfs] at h2
            cases h2
          · intro _ h2
            rw [hS2, hfs] at h2
            cases h2
        | none =>
          match hfb : fallback2 data rf with
          | some s3 =>
            have hOk : extractAnswer data = ApiAnswer.ok s3 := by
              rw [hE0]
              exact afterPrimary_nil_fb data rf af s3 hfs hfb
            refine ⟨?_, ?_, ?_, ?_, ?_⟩
            · intro s h
              rw [hOk] at h
              cases h
              exact fallback2_some_ne_nil data rf s3 hfb
            · intro s h
              rw [h1] at h
              cases h
            · intro _ s h
              rw [hS2, hfs] at h
              cases h
            · intro _ _ s h
              rw [hS3, hfb] at h
              cases h
              exact hOk
            · intro _ _ h3
              rw [hS3, hfb] at h3
              cases h3
          | none =>
            have hSh : extractAnswer data = ApiAnswer.shapeError data := by
              rw [hE0]
              exact afterPrimary_nil_none data rf af hfs hfb
            refine ⟨?_, ?_, ?_, ?_, ?_⟩
            · intro s h
              rw [hSh] at h
              cases h
            · intro s h
              rw [h1] at h
              cases h
            · intro _ s h
              rw [hS2, hfs] at h
              cases h
            · intro _ _ s h
              rw [hS3, hfb] at h
              cases h
            · intro _ _ _
              exact hSh
      match hjm : jget af MODEL_KEY with
      | some (Json.str s) =>
        rw [hjm] at hE hS1
        dsimp only at hE hS1
        match hts : trimLC s with
        | [] =>
          rw [hts] at hE hS1
          exact nilCase hE hS1
        | c :: cs =>
          rw [hts] at hE hS1
          have hOk : extractAnswer data = ApiAnswer.ok (c :: cs) := by
            rw [hE]
            exact afterPrimary_pos data rf af (c :: cs) (by simp)
          refine ⟨?_, ?_, ?_, ?_, ?_⟩
          · intro s0 h
            rw [hOk] at h
            cases h
            simp
          · intro s0 h
            rw [hS1] at h
            cases h
            exact hOk
          · intro h1
            rw [hS1] at h1
            cases h1
          · intro h1
            rw [hS1] at h1
            cases h1
          · intro h1
            rw [hS1] at h1
            cases h1
      | none =>
        rw [hjm] at hE hS1
        dsimp only at hE hS1
        exact nilCase hE hS1
      | some Json.null => simp [wellShaped, hjr, hja, hjm] at hW
      | some (Json.num n) => simp [wellShaped, hjr, hja, hjm] at hW
      | some (Json.bool b) => simp [wellShaped, hjr, hja, hjm] at hW
      | some (Json.arr xs) => simp [wellShaped, hjr, hja, hjm] at hW
      | some (Json.obj o) => simp [wellShaped, hjr, hja, hjm] at hW

/-- Witness for C8: the primary path succeeds on a nested payload, and an
unrecognised payload raises with the raw body attached. -/
theorem c8_never_fabricates_witness :
    extractAnswer dataNested = ApiAnswer.ok "The answer.".data ∧
      extractAnswer dataOpaque = ApiAnswer.shapeError dataOpaque := by
  constructor
  · exact (c8_never_fabricates dataNested (by decide)).2.1
      "The answer.".data (by decide)
  · exact (c8_never_fabricates dataOpaque (by decide)).2.2.2.2
      (by decide) (by decide) (by decide)

/-! ### Parser lemmas: lengths and fuel -/

theorem length_dropWhile_le (p : Char → Bool) (l : List Char) :
    (l.dropWhile p).length ≤ l.length := by
  induction l with
  | nil => simp
  | cons c cs ih =>
    rw [List.dropWhile_cons]
    by_cases h : p c
    · rw [if_pos h]; simp; omega
    · rw [if_neg h]

theorem startsWithCI_length :
    ∀ (pat s : List Char), startsWithCI pat s = true → pat.length ≤ s.length := by
  intro pat
  induction pat with
  | nil => intro s _; simp
  | cons p ps ih =>
    intro s h
    match s with
    | [] => cases h
    | c :: cs =>
      rw [startsWithCI, Bool.and_eq_true] at h
      simpa using ih cs h.2

theorem matchCI_some_length {pat s r : List Char} (h : matchCI pat s = some r) :
    r.length + pat.length = s.length := by
  rw [matchCI] at h
  by_cases hs : startsWithCI pat s
  · rw [if_pos hs] at h
    cases h
    have := startsWithCI_length pat s hs
    simp [List.length_drop]
    omega
  · rw [if_neg hs] at h
    cases h

theorem lazySplitGo_rest_le {β : Type} (close : List Char)
    (k : List Char → List Char → Option β) (meas : β → Nat)
    (hk : ∀ c r b, k c r = some b → meas b ≤ r.length) :
    ∀ (s pre : List Char) (b : β),
      lazySplitGo close k pre s = some b → meas b ≤ s.length := by
  intro s
  induction s with
  | nil =>
    intro pre b h
    rw [lazySplitGo] at h
    match hm : matchCI close [] with
    | some rest =>
      rw [hm] at h
      have hlen := matchCI_some_length hm
      have := hk pre.reverse rest b h
      simp only [List.length_nil] at hlen ⊢
      omega
    | none => rw [hm] at h; cases h
  | cons c cs ih =>
    intro pre b h
    rw [lazySplitGo] at h
    match hm : matchCI close (c :: cs) with
    | some rest =>
      rw [hm] at h
      dsimp only at h
      match hk2 : k pre.reverse rest with
      | some b2 =>
        rw [hk2] at h
        cases h
        have := hk pre.reverse rest b hk2
        have hlen := matchCI_some_length hm
        simp at hlen ⊢
        omega
      | none =>
        rw [hk2] at h
        have := ih (c :: pre) b h
        simp at this ⊢
        omega
    | none =>
      rw [hm] at h
      dsimp only at h
      have := ih (c :: pre) b h
      simp at this ⊢
      omega

theorem tailCont_rest_le {dOpt d : Option (List Char)} {q rest2 qq r5 : List Char}
    (h : tailCont dOpt q rest2 = some (d, qq, r5)) : r5.length ≤ rest2.length := by
  rw [tailCont] at h
  match hm : matchCI TOOL_CLOSE (rest2.dropWhile isSpacePy) with
  | some r =>
    rw [hm] at h
    cases h
    have hlen := matchCI_some_length hm
    have hdw : (rest2.dropWhile isSpacePy).length ≤ rest2.length :=
      length_dropWhile_le isSpacePy rest2
    omega
  | none => rw [hm] at h; cases h

theorem sqlCont_rest_le {dOpt d : Option (List Char)} {r2 qq r5 : List Char}
    (h : sqlCont dOpt r2 = some (d, qq, r5)) : r5.length ≤ r2.length := by
  rw [sqlCont] at h
  match hm : matchCI SQL_OPEN r2 with
  | some r3 =>
    rw [hm] at h
    have hle := lazySplitGo_rest_le SQL_CLOSE (tailCont dOpt)
      (fun b => b.2.2.length)
      (fun c r b hb => by
        match b with
        | (d0, q0, r0) => exact tailCont_rest_le hb)
      r3 [] (d, qq, r5) h
    have hlen := matchCI_some_length hm
    simp at hle
    omega
  | none => rw [hm] at h; cases h

theorem matchToolBlock_rest_lt {s : List Char} {d : Option (List Char)}
    {q rest : List Char} (h : matchToolBlock s = some (d, q, rest)) :
    rest.length < s.length := by
  rw [matchToolBlock] at h
  match hm : matchCI TOOL_OPEN s with
  | none => rw [hm] at h; cases h
  | some s1 =>
    rw [hm] at h
    dsimp only at h
    have hlen := matchCI_some_length hm
    have hs1 : (s1.dropWhile isSpacePy).length ≤ s1.length :=
      length_dropWhile_le isSpacePy s1
    have hTO : TOOL_OPEN.length = 11 := by decide
    match hdo : (match matchCI DESC_OPEN (s1.dropWhile isSpacePy) with
                 | none => none
                 | some s3 => lazySplitGo DESC_CLOSE descCont [] s3) with
    | some res =>
      rw [hdo] at h
      cases h
      match hdm : matchCI DESC_OPEN (s1.dropWhile isSpacePy) with
      | none => rw [hdm] at hdo; cases hdo
      | some s3 =>
        rw [hdm] at hdo
        have hle := lazySplitGo_rest_le DESC_CLOSE descCont
          (fun b => b.2.2.length)
          (fun c r b hb => by
            rw [descCont] at hb
            match b with
            | (d0, q0, r0) =>
              have hs := sqlCont_rest_le hb
              have : (r.dropWhile isSpacePy).length ≤ r.length :=
                length_dropWhile_le isSpacePy r
              dsimp only
              omega)
          s3 [] (d, q, rest) hdo
        have hlen2 := matchCI_some_length hdm
        simp at hle
        omega
    | none =>
      rw [hdo] at h
      have hs := sqlCont_rest_le h
      omega

/-- The finditer scan does not depend on the fuel once it covers the text
length. -/
theorem findToolBlocksGo_fuelAux :
    ∀ (len : Nat) (s : List Char), s.length ≤ len →
      ∀ (m n : Nat), s.length ≤ m → s.length ≤ n →
        findToolBlocksGo m s = findToolBlocksGo n s := by
  intro len
  induction len using Nat.strong_induction_on with
  | _ len ih =>
    intro s hs m n hm hn
    match s with
    | [] =>
      match m, n with
      | 0, 0 => rfl
      | 0, _ + 1 => rfl
      | _ + 1, 0 => rfl
      | _ + 1, _ + 1 => rfl
    | c :: cs =>
      match m, n, hm, hn with
      | m + 1, n + 1, hm, hn =>
        rw [findToolBlocksGo, findToolBlocksGo]
        match hb : matchToolBlock (c :: cs) with
        | some (d, q, rest) =>
          have hlt := matchToolBlock_rest_lt hb
          have hsl : (c :: cs).length ≤ len := hs
          simp only [List.length_cons] at hlt hsl hm hn
          have := ih rest.length (by omega) rest (Nat.le_refl _) m n
            (by omega) (by omega)
          dsimp only
          rw [this]
        | none =>
          have hsl : (c :: cs).length ≤ len := hs
          simp only [List.length_cons] at hsl hm hn
          have := ih cs.length (by omega) cs (Nat.le_refl _) m n
            (by omega) (by omega)
          dsimp only
          rw [this]

theorem findToolBlocksGo_fuel (s : List Char) (m n : Nat)
    (hm : s.length ≤ m) (hn : s.length ≤ n) :
    findToolBlocksGo m s = findToolBlocksGo n s :=
  findToolBlocksGo_fuelAux s.length s (Nat.le_refl _) m n hm hn

theorem findToolBlocksGo_eq (s : List Char) (m : Nat) (hm : s.length ≤ m) :
    findToolBlocksGo m s = findToolBlocks s :=
  findToolBlocksGo_fuel s m s.length hm (Nat.le_refl _)

/-! ### Parser lemmas: case-insensitive matching -/

/-- A casing variant of a lower-case-fixed literal matches it, consuming
exactly itself. -/
theorem startsWithCI_of_map (pat : List Char) :
    ∀ (t r : List Char), pat.map Char.toLower = pat →
      t.map Char.toLower = pat → startsWithCI pat (t ++ r) = true := by
  induction pat with
  | nil => intro t r _ _; simp [startsWithCI]
  | cons p ps ih =>
    intro t r hfix ht
    match t with
    | [] => cases ht
    | c :: ts =>
      simp only [List.map_cons, List.cons.injEq] at hfix ht
      rw [List.cons_append, startsWithCI, Bool.and_eq_true]
      constructor
      · rw [lcEq, ht.1, hfix.1]
        exact beq_self_eq_true p
      · exact ih ts r hfix.2 ht.2

theorem matchCI_of_map {pat t : List Char} (r : List Char)
    (hfix : pat.map Char.toLower = pat) (ht : t.map Char.toLower = pat) :
    matchCI pat (t ++ r) = some r := by
  rw [matchCI, if_pos (startsWithCI_of_map pat t r hfix ht)]
  have hlen : pat.length = t.length := by
    rw [← ht, List.length_map]
  rw [hlen, List.drop_left]

/-- At a character that is not a `<` under lower-casing, no pattern
starting with `<` can match. -/
theorem startsWithCI_lt_false {pat' cs : List Char} {c : Char}
    (hc : ¬c.toLower = '<') : startsWithCI ('<' :: pat') (c :: cs) = false := by
  rw [startsWithCI, Bool.and_eq_false_iff]
  left
  rw [lcEq]
  have : Char.toLower '<' = '<' := by decide
  rw [this]
  exact beq_eq_false_iff_ne.mpr fun h => hc h.symm

theorem matchCI_lt_none {pat' cs : List Char} {c : Char}
    (hc : ¬c.toLower = '<') : matchCI ('<' :: pat') (c :: cs) = none := by
  rw [matchCI, if_neg]
  rw [startsWithCI_lt_false hc]
  simp

/-- Text that contains no `<` under lower-casing never starts a
tool-call match. -/
theorem matchToolBlock_lt_none {cs : List Char} {c : Char}
    (hc : ¬c.toLower = '<') : matchToolBlock (c :: cs) = none := by
  rw [matchToolBlock]
  have hTO : TOOL_OPEN = '<' :: "tool_call>".data := rfl
  rw [hTO, matchCI_lt_none hc]

/-! ### Parser lemmas: whitespace runs -/

theorem dropWhile_append_allSpace {w : List Char} (r : List Char)
    (hw : allSpace w = true) :
    (w ++ r).dropWhile isSpacePy = r.dropWhile isSpacePy := by
  induction w with
  | nil => rfl
  | cons c cs ih =>
    rw [allSpace, List.all_cons, Bool.and_eq_true] at hw
    rw [List.cons_append, List.dropWhile_cons, if_pos hw.1]
    exact ih hw.2

/-- A whitespace character never lower-cases to `<`. -/
theorem isSpacePy_toLower_ne_lt {c : Char} (h : c.toLower = '<') :
    isSpacePy c = false := by
  by_contra hc
  rw [Bool.not_eq_false, isSpacePy] at hc
  simp only [Bool.or_eq_true, beq_iff_eq] at hc
  rcases hc with ((((h1 | h1) | h1) | h1) | h1) | h1 <;> subst h1 <;>
    exact absurd h (by decide)

/-- The whitespace run stops at a tag: the tag's first character
lower-cases to `<`. -/
theorem dropWhile_stop_at_tag {t : List Char} (r : List Char) {pat' : List Char}
    (ht : t.map Char.toLower = '<' :: pat') :
    (t ++ r).dropWhile isSpacePy = t ++ r := by
  match t with
  | [] => cases ht
  | c :: ts =>
    simp only [List.map_cons, List.cons.injEq] at ht
    rw [List.cons_append, List.dropWhile_cons,
      if_neg (by rw [isSpacePy_toLower_ne_lt ht.1]; simp)]

/-- Combined: a whitespace run followed by a tag is consumed exactly. -/
theorem dropWhile_ws_tag {w t : List Char} (r : List Char) {pat' : List Char}
    (hw : allSpace w = true) (ht : t.map Char.toLower = '<' :: pat') :
    (w ++ (t ++ r)).dropWhile isSpacePy = t ++ r := by
  rw [dropWhile_append_allSpace (t ++ r) hw, dropWhile_stop_at_tag r ht]

/-! ### Parser lemmas: lazy group success on well-formed content -/

/-- If the content `d` is tag-free, the closing literal `t` follows it, and
the continuation succeeds on the captured content, then the lazy group
match succeeds and captures exactly `d`. -/
theorem lazySplitGo_success {β : Type} {close : List Char}
    (k : List Char → List Char → Option β) {pat' : List Char}
    (hclose : close = '<' :: pat') (hfix : close.map Char.toLower = close) :
    ∀ (d : List Char) (pre : List Char) {t r : List Char} {b : β},
      noLt d = true → t.map Char.toLower = close →
      k (pre.reverse ++ d) r = some b →
      lazySplitGo close k pre (d ++ (t ++ r)) = some b := by
  intro d
  induction d with
  | nil =>
    intro pre t r b _ ht hk
    match t, ht with
    | [], ht => simp [hclose] at ht
    | c :: ts, ht =>
      have hm : matchCI close (c :: (ts ++ r)) = some r := by
        rw [← List.cons_append]
        exact matchCI_of_map r (by rw [hfix]) ht
      rw [List.nil_append, List.cons_append, lazySplitGo, hm]
      dsimp only
      rw [List.append_nil] at hk
      rw [hk]
  | cons c d' ih =>
    intro pre t r b hno ht hk
    rw [noLt, List.all_cons, Bool.and_eq_true] at hno
    have hcne : ¬c.toLower = '<' := by
      have := hno.1
      simp only [Bool.not_eq_true'] at this
      intro h
      rw [h] at this
      simp at this
    rw [List.cons_append, lazySplitGo, hclose, matchCI_lt_none hcne, ← hclose]
    dsimp only
    exact ih (c :: pre) hno.2 ht (by
      rw [List.reverse_cons, List.append_assoc]
      simpa using hk)

/-! ### Parser lemmas: a well-formed rendered block matches exactly -/

/-- The description tag cannot match where the sql tag stands. -/
theorem desc_open_not_at_sql {t : List Char} (X : List Char)
    (h : t.map Char.toLower = SQL_OPEN) :
    matchCI DESC_OPEN (t ++ X) = none := by
  have hS : SQL_OPEN = '<' :: 's' :: 'q' :: 'l' :: '>' :: [] := rfl
  match t with
  | [] => rw [hS] at h; cases h
  | [c0] => rw [hS] at h; simp at h
  | c0 :: c1 :: ts =>
    rw [hS] at h
    simp only [List.map_cons, List.cons.injEq] at h
    have hd : lcEq 'd' c1 = false := by
      rw [lcEq, h.2.1]
      decide
    have hD : DESC_OPEN = '<' :: 'd' :: "escription>".data := rfl
    rw [matchCI, if_neg]
    rw [hD, List.cons_append, List.cons_append, startsWithCI, startsWithCI, hd]
    simp

/-- The sql sub-pattern and the pattern tail match a well-formed rendering
of the sql part, capturing exactly the sql body. -/
theorem sqlCont_render (dOpt : Option (List Char))
    (sqlOpen sqlBody sqlClose ws3 tagClose rest : List Char)
    (h3 : sqlOpen.map Char.toLower = SQL_OPEN)
    (h4 : sqlClose.map Char.toLower = SQL_CLOSE)
    (h9 : allSpace ws3 = true)
    (h2 : tagClose.map Char.toLower = TOOL_CLOSE)
    (h11 : noLt sqlBody = true) :
    sqlCont dOpt
        (sqlOpen ++ (sqlBody ++ (sqlClose ++ (ws3 ++ (tagClose ++ rest))))) =
      some (dOpt, sqlBody, rest) := by
  rw [sqlCont, matchCI_of_map _ (by decide) h3]
  dsimp only
  have hk : tailCont dOpt sqlBody (ws3 ++ (tagClose ++ rest)) =
      some (dOpt, sqlBody, rest) := by
    rw [tailCont, dropWhile_ws_tag rest h9 h2, matchCI_of_map rest (by decide) h2]
  exact lazySplitGo_success (tailCont dOpt) rfl (by decide) sqlBody [] h11 h4 hk

/-- A well-formed rendered block, followed by anything, is matched by the
tool-call pattern as one match capturing its description and sql body and
ending exactly at the end of the block. -/
theorem matchToolBlock_render (b : RenderedBlock) (rest : List Char)
    (h1 : b.tagOpen.map Char.toLower = TOOL_OPEN)
    (h2 : b.tagClose.map Char.toLower = TOOL_CLOSE)
    (h3 : b.sqlOpen.map Char.toLower = SQL_OPEN)
    (h4 : b.sqlClose.map Char.toLower = SQL_CLOSE)
    (h5 : b.dOpen.map Char.toLower = DESC_OPEN)
    (h6 : b.dClose.map Char.toLower = DESC_CLOSE)
    (h7 : allSpace b.ws1 = true) (h8 : allSpace b.ws2 = true)
    (h9 : allSpace b.ws3 = true)
    (h10 : ∀ d, b.descr = some d → noLt d = true)
    (h11 : noLt b.sqlBody = true) :
    matchToolBlock (renderBlock b ++ rest) = some (b.descr, b.sqlBody, rest) := by
  cases hd : b.descr with
  | none =>
    have hR : renderBlock b ++ rest =
        b.tagOpen ++ (b.ws1 ++ (b.sqlOpen ++ (b.sqlBody ++
          (b.sqlClose ++ (b.ws3 ++ (b.tagClose ++ rest)))))) := by
      simp [renderBlock, hd, List.append_assoc]
    rw [hR, matchToolBlock, matchCI_of_map _ (by decide) h1]
    dsimp only
    rw [dropWhile_ws_tag _ h7 h3, desc_open_not_at_sql _ h3]
    dsimp only
    exact sqlCont_render none b.sqlOpen b.sqlBody b.sqlClose b.ws3 b.tagClose
      rest h3 h4 h9 h2 h11
  | some d =>
    have hR : renderBlock b ++ rest =
        b.tagOpen ++ (b.ws1 ++ (b.dOpen ++ (d ++ (b.dClose ++ (b.ws2 ++
          (b.sqlOpen ++ (b.sqlBody ++ (b.sqlClose ++ (b.ws3 ++
            (b.tagClose ++ rest)))))))))) := by
      simp [renderBlock, hd, List.append_assoc]
    rw [hR, matchToolBlock, matchCI_of_map _ (by decide) h1]
    dsimp only
    rw [dropWhile_ws_tag _ h7 h5, matchCI_of_map _ (by decide) h5]
    dsimp only
    have hk2 : descCont d (b.ws2 ++ (b.sqlOpen ++ (b.sqlBody ++ (b.sqlClose ++
        (b.ws3 ++ (b.tagClose ++ rest)))))) = some (some d, b.sqlBody, rest) := by
      rw [descCont, dropWhile_ws_tag _ h8 h3]
      exact sqlCont_render (some d) b.sqlOpen b.sqlBody b.sqlClose b.ws3
        b.tagClose rest h3 h4 h9 h2 h11
    have hlz : lazySplitGo DESC_CLOSE descCont []
        (d ++ (b.dClose ++ (b.ws2 ++ (b.sqlOpen ++ (b.sqlBody ++ (b.sqlClose ++
          (b.ws3 ++ (b.tagClose ++ rest)))))))) = some (some d, b.sqlBody, rest) :=
      lazySplitGo_success descCont rfl (by decide) d [] (h10 d hd) h6 hk2
    rw [hlz]

/-! ### Parser lemmas: the document scan -/

/-- The scan passes through tag-free prose. -/
theorem findToolBlocksGo_prose :
    ∀ (p s : List Char) (fuel : Nat), noLt p = true →
      (p ++ s).length ≤ fuel →
      findToolBlocksGo fuel (p ++ s) = findToolBlocks s := by
  intro p
  induction p with
  | nil =>
    intro s fuel _ h
    rw [List.nil_append] at h ⊢
    exact findToolBlocksGo_eq s fuel h
  | cons c p' ih =>
    intro s fuel hno hlen
    rw [noLt, List.all_cons, Bool.and_eq_true] at hno
    have hcne : ¬c.toLower = '<' := by
      have := hno.1
      simp only [Bool.not_eq_true'] at this
      intro h
      rw [h] at this
      simp at this
    match fuel, hlen with
    | fuel + 1, hlen =>
      rw [List.cons_append, findToolBlocksGo, matchToolBlock_lt_none hcne]
      dsimp only
      refine ih s fuel hno.2 ?_
      rw [List.cons_append, List.length_cons] at hlen
      omega

/-- Tag-free text yields no tool calls. -/
theorem findToolBlocks_noLt (p : List Char) (h : noLt p = true) :
    findToolBlocks p = [] := by
  have := findToolBlocksGo_prose p [] p.length h (by simp)
  rw [List.append_nil] at this
  rw [findToolBlocks]
  rw [this]
  rfl

/-- One well-formed block at the head of the text contributes exactly one
match, and the scan resumes after it. -/
theorem findToolBlocks_block_step (b : RenderedBlock) (Y : List Char)
    (hmatch : matchToolBlock (renderBlock b ++ Y) = some (b.descr, b.sqlBody, Y)) :
    findToolBlocks (renderBlock b ++ Y) =
      (b.descr, b.sqlBody) :: findToolBlocks Y := by
  have hlt := matchToolBlock_rest_lt hmatch
  match hX : renderBlock b ++ Y with
  | [] =>
    rw [hX] at hmatch
    have : matchToolBlock [] = none := rfl
    rw [this] at hmatch
    cases hmatch
  | c :: cs =>
    rw [hX] at hmatch hlt
    rw [findToolBlocks, List.length_cons, findToolBlocksGo, hmatch]
    dsimp only
    congr 1
    rw [List.length_cons] at hlt
    exact findToolBlocksGo_eq Y cs.length (by omega)

theorem wfBlock_parts {b : RenderedBlock} (h : wfBlock b = true) :
    b.tagOpen.map Char.toLower = TOOL_OPEN ∧
    b.tagClose.map Char.toLower = TOOL_CLOSE ∧
    b.sqlOpen.map Char.toLower = SQL_OPEN ∧
    b.sqlClose.map Char.toLower = SQL_CLOSE ∧
    b.dOpen.map Char.toLower = DESC_OPEN ∧
    b.dClose.map Char.toLower = DESC_CLOSE ∧
    allSpace b.ws1 = true ∧ allSpace b.ws2 = true ∧ allSpace b.ws3 = true ∧
    (∀ d, b.descr = some d → noLt d = true) ∧ noLt b.sqlBody = true := by
  rw [wfBlock] at h
  simp only [Bool.and_eq_true, ciIs, beq_iff_eq] at h
  obtain ⟨⟨⟨⟨⟨⟨⟨⟨⟨⟨hA, hB⟩, hC⟩, hD⟩, hE⟩, hF⟩, hG⟩, hH⟩, hI⟩, hJ⟩, hK⟩ := h
  refine ⟨hA, hB, hC, hD, hE, hF, hG, hH, hI, ?_, hK⟩
  intro d hd
  rw [hd] at hJ
  exact hJ

/-- The scan over a well-formed document finds exactly the rendered
blocks, in document order. -/
theorem findToolBlocks_render :
    ∀ (segs : List (List Char × RenderedBlock)) (trailing : List Char),
      wfDoc segs trailing = true →
      findToolBlocks (renderDoc segs trailing) =
        segs.map (fun pb => (pb.2.descr, pb.2.sqlBody)) := by
  intro segs
  induction segs with
  | nil =>
    intro trailing h
    rw [wfDoc, Bool.and_eq_true] at h
    rw [renderDoc, List.map_nil]
    exact findToolBlocks_noLt trailing h.2
  | cons pb rest ih =>
    intro trailing h
    rw [wfDoc, List.all_cons] at h
    simp only [Bool.and_eq_true] at h
    obtain ⟨⟨⟨hp, hb⟩, hrest⟩, htr⟩ := h
    have hwf : wfDoc rest trailing = true := by
      rw [wfDoc, Bool.and_eq_true]
      exact ⟨hrest, htr⟩
    obtain ⟨hA, hB, hC, hD, hE, hF, hG, hH, hI, hJ, hK⟩ := wfBlock_parts hb
    rw [renderDoc, findToolBlocks]
    rw [findToolBlocksGo_prose pb.1 _ _ hp (Nat.le_refl _)]
    rw [findToolBlocks_block_step pb.2 (renderDoc rest trailing)
      (matchToolBlock_render pb.2 (renderDoc rest trailing)
        hA hB hC hD hE hF hG hH hI hJ hK)]
    rw [ih trailing hwf]
    rfl

/-- Claim C7: for every response text consisting of N well-formed
tool-call blocks interleaved with tag-free prose, `extract_tool_calls`
returns exactly N description/sql entries in document order; the tags may
be arbitrary casings of the canonical tags and the interior whitespace
runs are arbitrary; a block whose description sub-block is absent, or
captured empty, gets the default description, and descriptions and sql
bodies are stripped. -/
theorem c7_parser_extracts_blocks
    (segs : List (List Char × RenderedBlock)) (trailing : List Char)
    (h : wfDoc segs trailing = true) :
    extract_tool_calls (renderDoc segs trailing) =
      segs.map (fun pb => expectedCall pb.2) := by
  rw [extract_tool_calls, findToolBlocks_render segs trailing h, List.map_map]
  rfl

/-- Witness for C7 on a concrete two-block document with mixed-case tags,
one description present and one absent. -/
theorem c7_parser_extracts_blocks_witness :
    extract_tool_calls (renderDoc exSegs exTrailing) =
      [{ description := "Top accounts".data,
         sql := "SELECT a FROM t".data },
       { description := defaultDescr,
         sql := "WITH x AS (SELECT 1) SELECT 2".data }] :=
  (c7_parser_extracts_blocks exSegs exTrailing (by decide)).trans (by decide)
